import Mathlib

/-!
Verification of the Execution Management Core of the NexusTrader repository:
a shallow embedding of `tradebot/core/cache.py`, `tradebot/base/ems.py`,
`src/nexustrader/exchange/bybit/ems.py` and
`src/nexustrader/exchange/okx/ems.py`, together with theorems settling the
specification's claims about them.

Conventions of the embedding:
* Python `dict` values become association lists (`List (key × value)`) with
  last-write-wins upsert; Python `set` values become duplicate-free `List`s.
* Python `float` and `Decimal` arithmetic is embedded exactly over `ℚ`;
  `Decimal.quantize` is modelled by explicit rounding to a power-of-ten grid.
* Methods that mutate `self` become functions `State → State`.
* Raising `ZeroDivisionError` is modelled by returning `none` from an
  `Option`-valued function.
-/

namespace NexusTrader

/-- Modelled from the spec: `OrderStatus` lives in `tradebot/constants.py`,
which is not under `src/`.  Spec §4.3 lists the statuses INITIALIZED, PENDING,
ACCEPTED, PARTIALLY_FILLED, FILLED, CANCELING, CANCELED, FAILED, EXPIRED. -/
inductive OrderStatus where
  | INITIALIZED
  | PENDING
  | ACCEPTED
  | PARTIALLY_FILLED
  | FILLED
  | CANCELING
  | CANCELED
  | FAILED
  | EXPIRED
deriving DecidableEq, Repr

open OrderStatus

/-- Modelled from the spec: the derived predicate `Order.is_closed` is defined
in `tradebot/schema.py`, which is not under `src/`.  Spec §3: "`is_closed`
(status ∈ \x7bfilled, canceled, failed, expired\x7d)". -/
def OrderStatus.isClosed : OrderStatus → Bool
  | FILLED | CANCELED | FAILED | EXPIRED => true
  | _ => false

/-- Modelled from the spec: the derived predicate `Order.is_opened` is defined
in `tradebot/schema.py`, which is not under `src/`.  Spec §3: "`is_opened`
(status ∈ \x7bpending, accepted, partially_filled\x7d)". -/
def OrderStatus.isOpened : OrderStatus → Bool
  | PENDING | ACCEPTED | PARTIALLY_FILLED => true
  | _ => false

/-- Modelled from the spec: `STATUS_TRANSITIONS` lives in
`tradebot/constants.py`, which is not under `src/`.  This is the
allowed-transition table of spec §4.3, row by row; terminal statuses have no
outgoing transitions. -/
def STATUS_TRANSITIONS : OrderStatus → List OrderStatus
  | INITIALIZED => [PENDING, FAILED]
  | PENDING => [ACCEPTED, PARTIALLY_FILLED, FILLED, CANCELING, CANCELED, FAILED, EXPIRED]
  | ACCEPTED => [PARTIALLY_FILLED, FILLED, CANCELING, CANCELED, EXPIRED]
  | PARTIALLY_FILLED => [PARTIALLY_FILLED, FILLED, CANCELING, CANCELED, EXPIRED]
  | CANCELING => [PARTIALLY_FILLED, FILLED, CANCELED, FAILED]
  | FILLED | CANCELED | FAILED | EXPIRED => []

/-- Order side, from spec §3 (`side` ∈ \x7bbuy, sell\x7d). -/
inductive OrderSide where
  | BUY
  | SELL
deriving DecidableEq, Repr

/-- Modelled from the spec: the `Order` record of `tradebot/schema.py` (not
under `src/`), restricted to the fields the cache and EMS code under `src/`
reads: `uuid`, `symbol`, `exchange`, `status`, `timestamp` (ms), `side`,
`amount`, `filled`, `remaining`, `success`. -/
structure Order where
  uuid : String
  symbol : String
  exchange : String
  status : OrderStatus
  timestamp : Int
  side : OrderSide
  amount : ℚ
  filled : ℚ
  remaining : ℚ
  success : Bool
deriving DecidableEq, Repr

/-- Association-list lookup (embeds Python `dict.get`). -/
def alookup {α : Type} (k : String) : List (String × α) → Option α
  | [] => none
  | (k', v) :: rest => if k' = k then some v else alookup k rest

/-- Association-list upsert (embeds Python `d[k] = v`, last write wins). -/
def aupsert {α : Type} (k : String) (v : α) (m : List (String × α)) :
    List (String × α) :=
  (k, v) :: m.filter (fun p => p.1 ≠ k)

/-- Association-list delete (embeds Python `del d[k]` / `d.pop(k, None)`). -/
def aerase {α : Type} (k : String) (m : List (String × α)) : List (String × α) :=
  m.filter (fun p => p.1 ≠ k)

/-- Set insert (embeds Python `set.add`). -/
def sadd (u : String) (s : List String) : List String :=
  if u ∈ s then s else u :: s

/-- Set removal (embeds Python `set.discard`). -/
def sdiscard (u : String) (s : List String) : List String :=
  s.filter (fun x => x ≠ u)

/-- Dict-of-sets read with `defaultdict(set)` semantics: a missing key reads
as the empty set. -/
def dget (k : String) (m : List (String × List String)) : List String :=
  (alookup k m).getD []

/-- `defaultdict(set)`: `m[k].add u`. -/
def dadd (k : String) (u : String) (m : List (String × List String)) :
    List (String × List String) :=
  aupsert k (sadd u (dget k m)) m

/-- `defaultdict(set)`: `m[k].discard u`. -/
def ddiscard (k : String) (u : String) (m : List (String × List String)) :
    List (String × List String) :=
  aupsert k (sdiscard u (dget k m)) m

/-- Modelled from the spec: `SpotPosition` of `tradebot/schema.py` (not under
`src/`).  Spec §3: a per-symbol aggregate of filled quantity; we keep the
symbol, exchange and the signed filled amount. -/
structure SpotPosition where
  symbol : String
  exchange : String
  amount : ℚ
deriving DecidableEq, Repr

/-- Modelled from the spec: `SpotPosition._apply` of `tradebot/schema.py` (not
under `src/`).  Spec §3 describes `Position` as the per-symbol "aggregate of
filled quantity", updated when an order's status is FILLED, PARTIALLY_FILLED
or CANCELED; we model the update as accumulating the order's signed filled
quantity. -/
def SpotPosition.applyOrder (p : SpotPosition) (o : Order) : SpotPosition :=
  { p with amount := p.amount + (if o.side = OrderSide.BUY then o.filled else -o.filled) }

/-- The in-memory state of `AsyncCache` (`tradebot/core/cache.py`, `__init__`):
`_mem_closed_orders`, `_mem_orders`, `_mem_open_orders` (exchange → set of
uuid), `_mem_symbol_open_orders`, `_mem_symbol_orders`, `_mem_spot_positions`.
`redis_spot_positions` stands for the external key-value store consulted by
`get_position`; it is read-only in the operations embedded here. -/
structure AsyncCache where
  mem_closed_orders : List (String × Bool)
  mem_orders : List (String × Order)
  mem_open_orders : List (String × List String)
  mem_symbol_open_orders : List (String × List String)
  mem_symbol_orders : List (String × List String)
  mem_spot_positions : List (String × SpotPosition)
  redis_spot_positions : List (String × SpotPosition)
deriving DecidableEq, Repr

/-- The empty cache (a fresh `AsyncCache` with an empty external store). -/
def AsyncCache.empty : AsyncCache :=
  ⟨[], [], [], [], [], [], []⟩

/-- `AsyncCache._check_status_transition` (cache.py lines 193–204): a uuid
with no prior order passes; otherwise the new status must be listed in
`STATUS_TRANSITIONS[previous.status]`. -/
def AsyncCache.checkStatusTransition (c : AsyncCache) (order : Order) : Bool :=
  match alookup order.uuid c.mem_orders with
  | none => true
  | some previous => order.status ∈ STATUS_TRANSITIONS previous.status

/-- The `Order` branch of `AsyncCache._order_initialized` (cache.py lines
262–271): on a legal transition, store the order and add its uuid to the
exchange open set, the symbol order set and the symbol open set. -/
def AsyncCache.orderInitialized (c : AsyncCache) (order : Order) : AsyncCache :=
  if c.checkStatusTransition order then
    { c with
      mem_orders := aupsert order.uuid order c.mem_orders
      mem_open_orders := dadd order.exchange order.uuid c.mem_open_orders
      mem_symbol_orders := dadd order.symbol order.uuid c.mem_symbol_orders
      mem_symbol_open_orders := dadd order.symbol order.uuid c.mem_symbol_open_orders }
  else c

/-- The `Order` branch of `AsyncCache._order_status_update` (cache.py lines
273–282): on a legal transition, store the order; if it is closed, discard its
uuid from the exchange open set and the symbol open set. -/
def AsyncCache.orderStatusUpdate (c : AsyncCache) (order : Order) : AsyncCache :=
  if c.checkStatusTransition order then
    let c' := { c with mem_orders := aupsert order.uuid order c.mem_orders }
    if order.status.isClosed then
      { c' with
        mem_open_orders := ddiscard order.exchange order.uuid c'.mem_open_orders
        mem_symbol_open_orders :=
          ddiscard order.symbol order.uuid c'.mem_symbol_open_orders }
    else c'
  else c

/-- The `Order` part of `AsyncCache._cleanup_expired_data` (cache.py lines
139–155): every order whose `timestamp` is strictly below
`now − expire_time·1000` is deleted from `_mem_orders` and
`_mem_closed_orders`, and its uuid is discarded from every
`_mem_symbol_orders` set.  The open-order sets are not touched, and the
order's status is not consulted. -/
def AsyncCache.cleanupExpiredData (c : AsyncCache) (now expireTime : Int) :
    AsyncCache :=
  let expireBefore := now - expireTime * 1000
  let expired := (c.mem_orders.filter (fun p => p.2.timestamp < expireBefore)).map
    (fun p => p.1)
  expired.foldl (fun c uuid =>
    { c with
      mem_orders := aerase uuid c.mem_orders
      mem_closed_orders := aerase uuid c.mem_closed_orders
      mem_symbol_orders :=
        c.mem_symbol_orders.map (fun p => (p.1, sdiscard uuid p.2)) }) c

/-- `AsyncCache.get_position` (cache.py lines 241–260) restricted to spot
symbols: memory first, then the external store (modelled by
`redis_spot_positions`, cached into memory on hit), else `None`. -/
def AsyncCache.getPosition (c : AsyncCache) (symbol : String) :
    Option SpotPosition × AsyncCache :=
  match alookup symbol c.mem_spot_positions with
  | some p => (some p, c)
  | none =>
    match alookup symbol c.redis_spot_positions with
    | some p =>
      (some p, { c with mem_spot_positions := aupsert symbol p c.mem_spot_positions })
    | none => (none, c)

/-- Lines 216–223 of `_apply_spot_position`: if the symbol has no in-memory
position, take it from `get_position` (memory, then the external store), else
construct a fresh one, and store it under the symbol. -/
def AsyncCache.ensureSpotPosition (c : AsyncCache) (order : Order) : AsyncCache :=
  match alookup order.symbol c.mem_spot_positions with
  | some _ => c
  | none =>
    match c.getPosition order.symbol with
    | (some _, c') => c'
    | (none, c') =>
      { c' with
        mem_spot_positions :=
          aupsert order.symbol ⟨order.symbol, order.exchange, 0⟩
            c'.mem_spot_positions }

/-- Lines 225–226 of `_apply_spot_position`: on FILLED or CANCELED, flag the
uuid in `_mem_closed_orders` so the order is not applied again. -/
def AsyncCache.flagClosed (c : AsyncCache) (order : Order) : AsyncCache :=
  if order.status = FILLED ∨ order.status = CANCELED then
    { c with mem_closed_orders := aupsert order.uuid true c.mem_closed_orders }
  else c

/-- Lines 228–236 of `_apply_spot_position`: on FILLED, PARTIALLY_FILLED or
CANCELED, apply the order to the symbol's position. -/
def AsyncCache.applyFill (c : AsyncCache) (order : Order) : AsyncCache :=
  if order.status = FILLED ∨ order.status = PARTIALLY_FILLED ∨
      order.status = CANCELED then
    match alookup order.symbol c.mem_spot_positions with
    | some p =>
      { c with
        mem_spot_positions :=
          aupsert order.symbol (p.applyOrder order) c.mem_spot_positions }
    | none => c
  else c

/-- `AsyncCache._apply_spot_position` (cache.py lines 206–236): skip if the
uuid is flagged closed; otherwise ensure a position exists for the symbol,
flag the uuid closed on FILLED or CANCELED, and apply the order to the
position on FILLED, PARTIALLY_FILLED or CANCELED. -/
def AsyncCache.applySpotPosition (c : AsyncCache) (order : Order) : AsyncCache :=
  if (alookup order.uuid c.mem_closed_orders).getD false then c
  else ((c.ensureSpotPosition order).flagClosed order).applyFill order

/-- One OMS delivery of a status message: `_order_status_update` followed by
`_apply_spot_position` (the sequence the claims about duplicate deliveries
quantify over). -/
def AsyncCache.deliverStatus (c : AsyncCache) (order : Order) : AsyncCache :=
  (c.orderStatusUpdate order).applySpotPosition order

/-- A Python `Decimal` literal: mantissa and base-ten exponent, as produced by
`Decimal(str(x))`.  `Decimal.quantize` rounds to the grid `10^exp` of its
second operand, so the exponent matters and not only the value. -/
structure DecimalRep where
  mant : Int
  exp : Int
deriving DecidableEq, Repr

/-- The rational value of a `Decimal` literal. -/
def DecimalRep.val (d : DecimalRep) : ℚ := (d.mant : ℚ) * (10 : ℚ) ^ d.exp

/-- Rounding modes of `decimal`: `ROUND_HALF_UP`, `ROUND_CEILING`,
`ROUND_FLOOR` (ems.py line 6). -/
inductive RoundMode where
  | round
  | ceil
  | floor
deriving DecidableEq, Repr

/-- `ROUND_HALF_UP`: to the nearest integer, ties away from zero. -/
def roundHalfUp (q : ℚ) : Int :=
  if 0 ≤ q then ⌊q + 1 / 2⌋ else -⌊-q + 1 / 2⌋

/-- One rounding step to an integer, per mode. -/
def roundQ : RoundMode → ℚ → Int
  | RoundMode.round => roundHalfUp
  | RoundMode.ceil => fun q => ⌈q⌉
  | RoundMode.floor => fun q => ⌊q⌋

/-- `x.quantize(d, mode)` of Python `decimal`: round `x` to the grid
`10^(d.exp)`. -/
def quantize (x : ℚ) (e : Int) (mode : RoundMode) : ℚ :=
  (roundQ mode (x / (10 : ℚ) ^ e) : ℚ) * (10 : ℚ) ^ e

/-- `ExecutionManagementSystem._amount_to_precision` (ems.py lines 47–80),
with the market's `precision.amount` passed as a `Decimal` literal.  When the
precision is at least 1 the amount is divided by `Decimal(int(precision))`,
quantized to an integer and multiplied back; otherwise it is quantized
directly against the precision literal. -/
def amountToPrecision (precision : DecimalRep) (amount : ℚ)
    (mode : RoundMode := RoundMode.round) : ℚ :=
  if 1 ≤ precision.val then
    let exp : ℚ := (⌊precision.val⌋ : ℚ)
    (roundQ mode (amount / exp) : ℚ) * exp
  else
    quantize amount precision.exp mode

/-- Truncation toward zero, the behaviour of `Decimal.__floordiv__`. -/
def truncQ (q : ℚ) : Int :=
  if 0 ≤ q then ⌊q⌋ else ⌈q⌉

/-- `ExecutionManagementSystem._calculate_twap_orders` (ems.py lines 196–235).
A `none` result models a raised `ZeroDivisionError` (or `IndexError`): the
guarded divisors are `wait` (in `duration // wait`), the recomputed
`interval` (in `total_amount / interval`) and `base_amount` (in
`total_amount // base_amount`).  `duration // wait` is float floor division;
`total_amount // base_amount` is `Decimal` floor division (truncation) fed to
`int`; `amount_list[-1] += remaining` requires a nonempty list. -/
def calculateTwapOrders (precision : DecimalRep)
    (totalAmount duration wait minOrderAmount : ℚ) : Option (List ℚ × ℚ) :=
  if totalAmount = 0 then some ([], 0)
  else if totalAmount < minOrderAmount then some ([minOrderAmount], 0)
  else if wait = 0 then none
  else
    let interval : ℚ := (⌊duration / wait⌋ : ℚ)
    if interval = 0 then none
    else
      let baseAmount :=
        max minOrderAmount (amountToPrecision precision (totalAmount / interval))
      if baseAmount = 0 then none
      else
        let n : Int := truncQ (totalAmount / baseAmount)
        let remaining := totalAmount - (n : ℚ) * baseAmount
        if remaining < minOrderAmount then
          match n.toNat with
          | 0 => none
          | k + 1 =>
            let amountList := List.replicate k baseAmount ++ [baseAmount + remaining]
            some (amountList, duration / (amountList.length : ℚ))
        else
          let amountList := List.replicate n.toNat baseAmount ++ [remaining]
          some (amountList, duration / (amountList.length : ℚ))

/-- `BybitExecutionManagementSystem._get_min_order_amount`
(src/nexustrader/exchange/bybit/ems.py lines 54–58):
`max(6 / (book.bid + book.ask), market.limits.amount.min)`, rounded with
mode `ceil` to the amount precision. -/
def bybitGetMinOrderAmount (precision : DecimalRep) (bid ask marketMin : ℚ) : ℚ :=
  amountToPrecision precision (max (6 / (bid + ask)) marketMin) RoundMode.ceil

/-- `OkxExecutionManagementSystem._get_min_order_amount`
(src/nexustrader/exchange/okx/ems.py lines 61–64): `market.limits.amount.min`
rounded with mode `ceil` to the amount precision. -/
def okxGetMinOrderAmount (precision : DecimalRep) (marketMin : ℚ) : ℚ :=
  amountToPrecision precision marketMin RoundMode.ceil

/-- The claim's reading of Bybit's minimum order amount:
`max(6 / mid, market.limits.amount.min)` with `mid` the midpoint of the best
bid and ask, rounded up to the amount precision.  Stated from the claim's
words, for comparison with `bybitGetMinOrderAmount`. -/
def bybitMinOrderAmountClaimed (precision : DecimalRep) (bid ask marketMin : ℚ) : ℚ :=
  amountToPrecision precision (max (6 / ((bid + ask) / 2)) marketMin) RoundMode.ceil

/-- Outcome of one EMS handler call: the cache afterwards, the
`(endpoint, order)` messages published on the bus, the number of error-level
log lines, and whether the private connector was called. -/
structure EmsResult where
  cache : AsyncCache
  published : List (String × Order)
  errorLogs : Nat
  connectorCalled : Bool
deriving Repr

/-- `ExecutionManagementSystem._cancel_order` (ems.py lines 141–163).
`registryOrderId` is `self._registry.get_order_id(uuid)`; `resp` is the order
record the connector returns when it is called.  With no registry entry the
method logs one error and returns, calling nothing and publishing nothing;
otherwise the response's uuid is overwritten with the submitted uuid, and on
`success` the cache takes `_order_status_update` and `canceling` is
published, else the cache is untouched and `cancel_failed` is published. -/
def cancelOrder (c : AsyncCache) (registryOrderId : Option String)
    (submitUuid : String) (resp : Order) : EmsResult :=
  match registryOrderId with
  | none => ⟨c, [], 1, false⟩
  | some _ =>
    let o := { resp with uuid := submitUuid }
    if o.success then
      ⟨c.orderStatusUpdate o, [("canceling", o)], 0, true⟩
    else
      ⟨c, [("cancel_failed", o)], 0, true⟩

/-- `ExecutionManagementSystem._create_order` (ems.py lines 165–187): the
connector response's uuid is overwritten with the submitted uuid; on success
the order is registered and `_order_initialized` runs and `pending` is
published; on failure `_order_status_update` runs and `failed` is
published. -/
def createOrder (c : AsyncCache) (submitUuid : String) (resp : Order) : EmsResult :=
  let o := { resp with uuid := submitUuid }
  if o.success then
    ⟨c.orderInitialized o, [("pending", o)], 0, true⟩
  else
    ⟨c.orderStatusUpdate o, [("failed", o)], 0, true⟩

/-- Modelled from the spec: `AlgoOrderStatus` lives in
`tradebot/constants.py`, which is not under `src/`.  Spec §3: `status` ∈
\x7bINITIALIZED, RUNNING, FINISHED, CANCELING, CANCELED, FAILED\x7d. -/
inductive AlgoOrderStatus where
  | INITIALIZED
  | RUNNING
  | FINISHED
  | CANCELING
  | CANCELED
  | FAILED
deriving DecidableEq, Repr

/-- What `_twap_order` observes about a child order in its watch phase
(ems.py lines 306–310): the `get_order` result, reduced to the three
`bind_optional` flags and the `remaining` amount read on the closed
branch. -/
structure ChildObs where
  isOpened : Bool
  onFlight : Bool
  isClosed : Bool
  remaining : ℚ
deriving DecidableEq, Repr

/-- One interaction of the TWAP loop with its environment: the result of a
`_create_order` call (`success` flag and the uuid of the child), or the
cached state `get_order` returns in the watch phase (`none` when the cache
has no such order). -/
inductive TwapEvent where
  | createResult (success : Bool) (uuid : String)
  | cached (obs : Option ChildObs)
deriving DecidableEq, Repr

/-- The `try` body of `ExecutionManagementSystem._twap_order` (ems.py lines
303–404), reduced to the sequence of parent statuses committed through
`_order_status_update`.  State: the pending slice list (popped from the end,
Python `list.pop()`), the outstanding child (`order_id`), the environment
events still to be consumed, and the statuses committed so far.  The `Bool`
is `true` when the body ran to completion within the given fuel and events
(`false` is a model artifact, not a behaviour of the code).  On each
successful child submission RUNNING is recorded (the parent is re-committed
with its running status); on a failed submission FAILED is recorded and the
loop breaks; after the loop exits — normally or via `break` — lines 401–402
unconditionally record FINISHED. -/
def twapLoop (minOrderAmount : ℚ) :
    Nat → List ℚ → Option String → List TwapEvent → List AlgoOrderStatus →
    List AlgoOrderStatus × Bool
  | 0, _, _, _, acc => (acc, false)
  | _ + 1, [], _, _, acc => (acc ++ [AlgoOrderStatus.FINISHED], true)
  | fuel + 1, a :: rest, some oid, events, acc =>
    match events with
    | TwapEvent.cached obs :: evs =>
      let isOpened := (obs.map ChildObs.isOpened).getD false
      let onFlight := (obs.map ChildObs.onFlight).getD false
      let isClosed := (obs.map ChildObs.isClosed).getD false
      if isOpened ∧ ¬onFlight then
        twapLoop minOrderAmount fuel (a :: rest) (some oid) evs acc
      else if isClosed then
        let remaining := (obs.map ChildObs.remaining).getD 0
        if minOrderAmount < remaining then
          match evs with
          | TwapEvent.createResult succ uuid :: evs' =>
            if succ then
              twapLoop minOrderAmount fuel (a :: rest) (some uuid) evs'
                (acc ++ [AlgoOrderStatus.RUNNING])
            else
              (acc ++ [AlgoOrderStatus.FAILED, AlgoOrderStatus.FINISHED], true)
          | _ => (acc, false)
        else
          let l := a :: rest
          twapLoop minOrderAmount fuel (l.dropLast ++ [l.getLast (by simp) + remaining])
            none evs acc
      else
        twapLoop minOrderAmount fuel (a :: rest) (some oid) evs acc
    | _ => (acc, false)
  | fuel + 1, a :: rest, none, events, acc =>
    match events with
    | TwapEvent.createResult succ uuid :: evs =>
      if succ then
        twapLoop minOrderAmount fuel ((a :: rest).dropLast) (some uuid) evs
          (acc ++ [AlgoOrderStatus.RUNNING])
      else
        (acc ++ [AlgoOrderStatus.FAILED, AlgoOrderStatus.FINISHED], true)
    | _ => (acc, false)

/-- The statuses `_twap_order` commits for the parent, in order: RUNNING from
the initial `_order_initialized` (ems.py lines 269–282), then everything the
loop commits. -/
def twapStatusTrace (minOrderAmount : ℚ) (fuel : Nat) (amounts : List ℚ)
    (events : List TwapEvent) : List AlgoOrderStatus × Bool :=
  twapLoop minOrderAmount fuel amounts none events [AlgoOrderStatus.RUNNING]

/-! ## Helper lemmas about association lists and sets -/

lemma alookup_aupsert_self {α : Type} (k : String) (v : α) (m : List (String × α)) :
    alookup k (aupsert k v m) = some v := by
  simp [alookup, aupsert]

lemma alookup_filter_ne {α : Type} (k k' : String) (h : k' ≠ k)
    (m : List (String × α)) :
    alookup k (m.filter (fun p => p.1 ≠ k')) = alookup k m := by
  simp only [ne_eq]
  induction m with
  | nil => rfl
  | cons hd tl ih =>
    cases hd with
    | mk a b =>
      simp only [decide_not] at ih
      by_cases hk : a = k'
      · have hak : ¬ a = k := fun hc => h (hk ▸ hc)
        simp [List.filter_cons, alookup, hk, hak, ih, h]
      · by_cases hak : a = k
        · simp [List.filter_cons, alookup, hk, hak, Ne.symm h]
        · simp [List.filter_cons, alookup, hk, hak, ih]

lemma alookup_aupsert_ne {α : Type} (k k' : String) (v : α) (m : List (String × α))
    (h : k' ≠ k) :
    alookup k (aupsert k' v m) = alookup k m := by
  simp only [aupsert, alookup, if_neg h]
  exact alookup_filter_ne k k' h m

lemma alookup_aerase_self {α : Type} (k : String) (m : List (String × α)) :
    alookup k (aerase k m) = none := by
  induction m with
  | nil => rfl
  | cons hd tl ih =>
    cases hd with
    | mk a b =>
      by_cases hk : a = k
      · simp [aerase, List.filter_cons, hk] at ih ⊢
        exact ih
      · simp [aerase, List.filter_cons, hk, alookup] at ih ⊢
        exact ih

lemma alookup_aerase_ne {α : Type} (k k' : String) (m : List (String × α))
    (h : k' ≠ k) :
    alookup k (aerase k' m) = alookup k m :=
  alookup_filter_ne k k' h m

lemma mem_sadd (u v : String) (s : List String) :
    u ∈ sadd v s ↔ u = v ∨ u ∈ s := by
  unfold sadd
  by_cases h : v ∈ s
  · simp only [if_pos h]
    constructor
    · exact Or.inr
    · rintro (rfl | hu)
      · exact h
      · exact hu
  · simp [if_neg h]

lemma mem_sdiscard (u v : String) (s : List String) :
    u ∈ sdiscard v s ↔ u ∈ s ∧ u ≠ v := by
  simp [sdiscard]

lemma dget_aupsert (x k : String) (s : List String)
    (m : List (String × List String)) :
    dget x (aupsert k s m) = if x = k then s else dget x m := by
  by_cases h : x = k
  · subst h
    simp [dget, alookup_aupsert_self]
  · rw [if_neg h]
    unfold dget
    rw [alookup_aupsert_ne x k s m (fun hc => h hc.symm)]

lemma dget_dadd (x k u : String) (m : List (String × List String)) :
    dget x (dadd k u m) = if x = k then sadd u (dget k m) else dget x m := by
  unfold dadd
  exact dget_aupsert x k _ m

lemma dget_ddiscard (x k u : String) (m : List (String × List String)) :
    dget x (ddiscard k u m) = if x = k then sdiscard u (dget k m) else dget x m := by
  unfold ddiscard
  exact dget_aupsert x k _ m

lemma alookup_mem {α : Type} {u : String} {v : α} {m : List (String × α)}
    (h : alookup u m = some v) : (u, v) ∈ m := by
  induction m with
  | nil => simp [alookup] at h
  | cons hd tl ih =>
    cases hd with
    | mk a b =>
      by_cases hk : a = u
      · subst hk
        simp only [alookup, if_pos rfl] at h
        cases h
        exact List.mem_cons_self _ _
      · simp only [alookup, if_neg hk] at h
        exact List.mem_cons_of_mem _ (ih h)

lemma nodup_alookup_unique {α : Type} {u : String} {o o' : α}
    {m : List (String × α)} (hnd : (m.map Prod.fst).Nodup)
    (h : alookup u m = some o) (h' : (u, o') ∈ m) : o' = o := by
  induction m with
  | nil => simp at h'
  | cons hd tl ih =>
    cases hd with
    | mk a b =>
      simp only [List.map_cons, List.nodup_cons] at hnd
      rcases List.mem_cons.mp h' with heq | hmem
      · cases heq
        simp only [alookup, if_pos rfl] at h
        exact (Option.some_injective _ h).symm ▸ rfl
      · by_cases hk : a = u
        · subst hk
          exact absurd (List.mem_map.mpr ⟨(a, o'), hmem, rfl⟩) hnd.1
        · simp only [alookup, if_neg hk] at h
          exact ih hnd.2 h hmem

/-- The eviction loop of `_cleanup_expired_data` only ever touches
`_mem_orders` by deleting the expired uuids. -/
lemma foldl_cleanup_step_mem_orders (l : List String) (c : AsyncCache) :
    (l.foldl (fun c uuid =>
      { c with
        mem_orders := aerase uuid c.mem_orders
        mem_closed_orders := aerase uuid c.mem_closed_orders
        mem_symbol_orders :=
          c.mem_symbol_orders.map (fun p => (p.1, sdiscard uuid p.2)) }) c).mem_orders =
    l.foldl (fun m uuid => aerase uuid m) c.mem_orders := by
  induction l generalizing c with
  | nil => rfl
  | cons k rest ih => exact ih _

lemma alookup_foldl_aerase {α : Type} (u : String) (l : List String)
    (m : List (String × α)) :
    alookup u (l.foldl (fun m k => aerase k m) m) =
      if u ∈ l then none else alookup u m := by
  induction l generalizing m with
  | nil => simp
  | cons k rest ih =>
    by_cases hk : u = k
    · subst hk
      simp only [List.foldl_cons, ih, List.mem_cons, true_or, if_true]
      by_cases hr : u ∈ rest
      · simp [hr]
      · simp [hr, alookup_aerase_self]
    · simp only [List.foldl_cons, ih, List.mem_cons]
      rw [alookup_aerase_ne u k m (fun hc => hk hc.symm)]
      by_cases hr : u ∈ rest
      · simp [hr]
      · simp [hr, hk]

/-! ## Helper lemmas for duplicate status delivery -/

lemma ensure_spec (c : AsyncCache) (o : Order) :
    ∃ sp, c.ensureSpotPosition o = { c with mem_spot_positions := sp } ∧
      (alookup o.symbol sp).isSome := by
  unfold AsyncCache.ensureSpotPosition AsyncCache.getPosition
  cases hm : alookup o.symbol c.mem_spot_positions with
  | some p => exact ⟨c.mem_spot_positions, rfl, by rw [hm]; rfl⟩
  | none =>
    cases hr : alookup o.symbol c.redis_spot_positions with
    | some p =>
      exact ⟨aupsert o.symbol p c.mem_spot_positions, rfl,
        by rw [alookup_aupsert_self]; rfl⟩
    | none =>
      exact ⟨aupsert o.symbol ⟨o.symbol, o.exchange, 0⟩ c.mem_spot_positions, rfl,
        by rw [alookup_aupsert_self]; rfl⟩

lemma ensure_of_isSome (c : AsyncCache) (o : Order)
    (h : (alookup o.symbol c.mem_spot_positions).isSome) :
    c.ensureSpotPosition o = c := by
  unfold AsyncCache.ensureSpotPosition
  cases hm : alookup o.symbol c.mem_spot_positions with
  | some p => rfl
  | none => rw [hm] at h; simp at h

lemma flag_spec (c : AsyncCache) (o : Order) :
    c.flagClosed o =
      { c with mem_closed_orders :=
          if o.status = FILLED ∨ o.status = CANCELED then
            aupsert o.uuid true c.mem_closed_orders
          else c.mem_closed_orders } := by
  unfold AsyncCache.flagClosed
  split <;> rfl

lemma flag_not_closed (c : AsyncCache) (o : Order)
    (h : ¬ (o.status = FILLED ∨ o.status = CANCELED)) :
    c.flagClosed o = c := by
  unfold AsyncCache.flagClosed
  rw [if_neg h]

lemma applyFill_spec (c : AsyncCache) (o : Order) :
    ∃ sp, c.applyFill o = { c with mem_spot_positions := sp } := by
  unfold AsyncCache.applyFill
  split
  · cases alookup o.symbol c.mem_spot_positions with
    | some p => exact ⟨_, rfl⟩
    | none => exact ⟨c.mem_spot_positions, rfl⟩
  · exact ⟨c.mem_spot_positions, rfl⟩

lemma applyFill_isSome (c : AsyncCache) (o : Order)
    (h : (alookup o.symbol c.mem_spot_positions).isSome) :
    (alookup o.symbol (c.applyFill o).mem_spot_positions).isSome := by
  unfold AsyncCache.applyFill
  split
  · cases hm : alookup o.symbol c.mem_spot_positions with
    | some p =>
      simpa using
        congrArg Option.isSome
          (alookup_aupsert_self o.symbol (p.applyOrder o) c.mem_spot_positions)
    | none => exact h
  · exact h

lemma applyFill_not_fill (c : AsyncCache) (o : Order)
    (h : ¬ (o.status = FILLED ∨ o.status = PARTIALLY_FILLED ∨ o.status = CANCELED)) :
    c.applyFill o = c := by
  unfold AsyncCache.applyFill
  rw [if_neg h]

lemma applySpot_idem (c : AsyncCache) (o : Order)
    (h : o.status ≠ PARTIALLY_FILLED) :
    (c.applySpotPosition o).applySpotPosition o = c.applySpotPosition o := by
  by_cases hg : (alookup o.uuid c.mem_closed_orders).getD false
  · unfold AsyncCache.applySpotPosition
    rw [if_pos hg, if_pos hg]
  · have h1 : c.applySpotPosition o =
        ((c.ensureSpotPosition o).flagClosed o).applyFill o := by
      unfold AsyncCache.applySpotPosition
      rw [if_neg hg]
    obtain ⟨sp, hsp, hsome⟩ := ensure_spec c o
    obtain ⟨sp2, hsp2⟩ := applyFill_spec ((c.ensureSpotPosition o).flagClosed o) o
    by_cases hfc : o.status = FILLED ∨ o.status = CANCELED
    · have hclosed : (c.applySpotPosition o).mem_closed_orders =
          aupsert o.uuid true c.mem_closed_orders := by
        rw [h1, hsp2, flag_spec, if_pos hfc, hsp]
      have hg2 : (alookup o.uuid (c.applySpotPosition o).mem_closed_orders).getD false := by
        rw [hclosed, alookup_aupsert_self]
        rfl
      generalize hD : c.applySpotPosition o = D at hg2 ⊢
      unfold AsyncCache.applySpotPosition
      rw [if_pos hg2]
    · have hclosed : (c.applySpotPosition o).mem_closed_orders =
          c.mem_closed_orders := by
        rw [h1, hsp2, flag_spec, if_neg hfc, hsp]
      have hg2 : ¬ (alookup o.uuid (c.applySpotPosition o).mem_closed_orders).getD false := by
        rw [hclosed]; exact hg
      have hsome2 : (alookup o.symbol (c.applySpotPosition o).mem_spot_positions).isSome := by
        rw [h1]
        apply applyFill_isSome
        rw [flag_spec, if_neg hfc, hsp]
        exact hsome
      generalize hD : c.applySpotPosition o = D at hg2 hsome2 ⊢
      unfold AsyncCache.applySpotPosition
      rw [if_neg hg2, ensure_of_isSome _ _ hsome2, flag_not_closed _ _ hfc,
        applyFill_not_fill _ _ (by tauto)]

end NexusTrader
namespace NexusTrader

open OrderStatus

lemma filter_ne_idem {α : Type} (k : String) (m : List (String × α)) :
    (m.filter (fun p => p.1 ≠ k)).filter (fun p => p.1 ≠ k) =
      m.filter (fun p => p.1 ≠ k) := by
  induction m with
  | nil => rfl
  | cons hd tl ih =>
    by_cases h : hd.1 = k <;> simp [List.filter_cons, h, ih]

lemma aupsert_aupsert_self {α : Type} (k : String) (v : α) (m : List (String × α)) :
    aupsert k v (aupsert k v m) = aupsert k v m := by
  simp only [aupsert, List.filter_cons]
  simp [filter_ne_idem]

lemma self_loop_not_allowed (s : OrderStatus) (h : s ≠ PARTIALLY_FILLED) :
    s ∉ STATUS_TRANSITIONS s := by
  cases s <;> first | exact absurd rfl h | decide

lemma update_check_false (c : AsyncCache) (o : Order)
    (h : c.checkStatusTransition o = false) : c.orderStatusUpdate o = c := by
  unfold AsyncCache.orderStatusUpdate
  rw [h]
  rfl

lemma update_mem_orders (c : AsyncCache) (o : Order) :
    (c.orderStatusUpdate o).mem_orders =
      if c.checkStatusTransition o then aupsert o.uuid o c.mem_orders
      else c.mem_orders := by
  unfold AsyncCache.orderStatusUpdate
  by_cases hc : c.checkStatusTransition o
  · rw [if_pos hc, if_pos hc]
    dsimp only
    split <;> rfl
  · rw [if_neg hc, if_neg hc]

lemma update_open_eq (c : AsyncCache) (o : Order) (h : o.status.isClosed = false) :
    (c.orderStatusUpdate o).mem_open_orders = c.mem_open_orders ∧
    (c.orderStatusUpdate o).mem_symbol_open_orders = c.mem_symbol_open_orders := by
  unfold AsyncCache.orderStatusUpdate
  by_cases hc : c.checkStatusTransition o
  · rw [if_pos hc]
    dsimp only
    rw [h]
    exact ⟨rfl, rfl⟩
  · rw [if_neg hc]
    exact ⟨rfl, rfl⟩

lemma check_congr (c c' : AsyncCache) (o : Order)
    (h : c'.mem_orders = c.mem_orders) :
    c'.checkStatusTransition o = c.checkStatusTransition o := by
  unfold AsyncCache.checkStatusTransition
  rw [h]

lemma applySpot_proj (c : AsyncCache) (o : Order) :
    (c.applySpotPosition o).mem_orders = c.mem_orders ∧
    (c.applySpotPosition o).mem_open_orders = c.mem_open_orders ∧
    (c.applySpotPosition o).mem_symbol_open_orders = c.mem_symbol_open_orders := by
  unfold AsyncCache.applySpotPosition
  by_cases hg : (alookup o.uuid c.mem_closed_orders).getD false
  · rw [if_pos hg]
    exact ⟨rfl, rfl, rfl⟩
  · rw [if_neg hg]
    obtain ⟨sp, hsp, -⟩ := ensure_spec c o
    obtain ⟨sp2, hsp2⟩ := applyFill_spec ((c.ensureSpotPosition o).flagClosed o) o
    rw [hsp2, flag_spec, hsp]
    exact ⟨rfl, rfl, rfl⟩

/-! ## Operation sequences over the cache (claim C1) -/

/-- The cache operations claim C1 quantifies over. -/
inductive CacheOp where
  | init (o : Order)
  | update (o : Order)
  | cleanup (now : Int)

/-- Apply one cache operation (`expireTime` is the cache's `_expire_time`). -/
def AsyncCache.applyOp (c : AsyncCache) (expireTime : Int) : CacheOp → AsyncCache
  | CacheOp.init o => c.orderInitialized o
  | CacheOp.update o => c.orderStatusUpdate o
  | CacheOp.cleanup now => c.cleanupExpiredData now expireTime

/-- Run a sequence of cache operations. -/
def runOps (c : AsyncCache) (expireTime : Int) : List CacheOp → AsyncCache
  | [] => c
  | op :: ops => runOps (c.applyOp expireTime op) expireTime ops

/-- The open-orders invariant of claim C1: every uuid in
`_mem_open_orders[exchange]` or `_mem_symbol_open_orders[symbol]` is a key of
`_mem_orders` whose order has that exchange/symbol and a non-closed status,
and conversely every non-closed order in `_mem_orders` is registered in both
open sets; the order map has no duplicate keys. -/
def OpenOrdersInv (c : AsyncCache) : Prop :=
  (c.mem_orders.map Prod.fst).Nodup ∧
  (∀ ex u, u ∈ dget ex c.mem_open_orders →
    ∃ o, alookup u c.mem_orders = some o ∧ o.exchange = ex ∧
      o.status.isClosed = false) ∧
  (∀ sym u, u ∈ dget sym c.mem_symbol_open_orders →
    ∃ o, alookup u c.mem_orders = some o ∧ o.symbol = sym ∧
      o.status.isClosed = false) ∧
  (∀ u o, alookup u c.mem_orders = some o → o.status.isClosed = false →
    u ∈ dget o.exchange c.mem_open_orders ∧
    u ∈ dget o.symbol c.mem_symbol_open_orders)

/-- The conditions under which an operation is issued in the running system:
`_order_initialized` receives non-closed orders; `_order_status_update` on a
fresh uuid carries a closed status (the failed-submission path) and updates
for a known uuid keep its exchange and symbol; `_cleanup_expired_data` runs
only when every order past the cutoff is closed. -/
def GoodOp (c : AsyncCache) (expireTime : Int) : CacheOp → Prop
  | CacheOp.init o => o.status.isClosed = false ∧
      (∀ p, alookup o.uuid c.mem_orders = some p →
        p.exchange = o.exchange ∧ p.symbol = o.symbol)
  | CacheOp.update o =>
      (alookup o.uuid c.mem_orders = none → o.status.isClosed = true) ∧
      (∀ p, alookup o.uuid c.mem_orders = some p →
        p.exchange = o.exchange ∧ p.symbol = o.symbol)
  | CacheOp.cleanup now => ∀ u o, alookup u c.mem_orders = some o →
      o.timestamp < now - expireTime * 1000 → o.status.isClosed = true

/-- A sequence of operations each issued under its `GoodOp` condition. -/
def GoodSeq (c : AsyncCache) (expireTime : Int) : List CacheOp → Prop
  | [] => True
  | op :: ops => GoodOp c expireTime op ∧ GoodSeq (c.applyOp expireTime op) expireTime ops

/-! ## Helper lemmas for the open-orders invariant -/

lemma closed_no_transitions (s : OrderStatus) (h : s.isClosed = true) :
    STATUS_TRANSITIONS s = [] := by
  cases s <;> simp_all [OrderStatus.isClosed, STATUS_TRANSITIONS]

lemma aupsert_keys_nodup {α : Type} (k : String) (v : α) (m : List (String × α))
    (h : (m.map Prod.fst).Nodup) : ((aupsert k v m).map Prod.fst).Nodup := by
  unfold aupsert
  simp only [List.map_cons, List.nodup_cons]
  constructor
  · intro hmem
    obtain ⟨⟨a, b⟩, hab, heq⟩ := List.mem_map.mp hmem
    have := (List.mem_filter.mp hab).2
    simp at this
    exact this heq
  · have : (m.filter (fun p => p.1 ≠ k)).Sublist m := List.filter_sublist m
    exact ((this.map Prod.fst).nodup h)

lemma init_check_false (c : AsyncCache) (o : Order)
    (h : c.checkStatusTransition o = false) : c.orderInitialized o = c := by
  unfold AsyncCache.orderInitialized
  rw [h]
  rfl

lemma orderInitialized_inv (c : AsyncCache) (o : Order)
    (hinv : OpenOrdersInv c)
    (hcl : o.status.isClosed = false)
    (hstable : ∀ p, alookup o.uuid c.mem_orders = some p →
      p.exchange = o.exchange ∧ p.symbol = o.symbol) :
    OpenOrdersInv (c.orderInitialized o) := by
  obtain ⟨hnd, h1, h2, h3⟩ := hinv
  by_cases hc : c.checkStatusTransition o
  · unfold AsyncCache.orderInitialized
    rw [if_pos hc]
    refine ⟨aupsert_keys_nodup _ _ _ hnd, ?_, ?_, ?_⟩
    · intro ex u hu
      rw [dget_dadd] at hu
      by_cases hex : ex = o.exchange
      · rw [if_pos hex, mem_sadd] at hu
        rcases hu with rfl | hu
        · exact ⟨o, alookup_aupsert_self _ _ _, hex.symm, hcl⟩
        · obtain ⟨p, hp, hpe, hpc⟩ := h1 o.exchange u hu
          by_cases huu : u = o.uuid
          · subst huu
            exact ⟨o, alookup_aupsert_self _ _ _, hex.symm, hcl⟩
          · exact ⟨p, by
              rw [alookup_aupsert_ne u o.uuid o c.mem_orders (fun hx => huu hx.symm)]
              exact hp, hpe.trans hex.symm, hpc⟩
      · rw [if_neg hex] at hu
        obtain ⟨p, hp, hpe, hpc⟩ := h1 ex u hu
        by_cases huu : u = o.uuid
        · subst huu
          exact absurd (hpe.symm.trans (hstable p hp).1) hex
        · exact ⟨p, by
            rw [alookup_aupsert_ne u o.uuid o c.mem_orders (fun hx => huu hx.symm)]
            exact hp, hpe, hpc⟩
    · intro sym u hu
      rw [dget_dadd] at hu
      by_cases hsym : sym = o.symbol
      · rw [if_pos hsym, mem_sadd] at hu
        rcases hu with rfl | hu
        · exact ⟨o, alookup_aupsert_self _ _ _, hsym.symm, hcl⟩
        · obtain ⟨p, hp, hpe, hpc⟩ := h2 o.symbol u hu
          by_cases huu : u = o.uuid
          · subst huu
            exact ⟨o, alookup_aupsert_self _ _ _, hsym.symm, hcl⟩
          · exact ⟨p, by
              rw [alookup_aupsert_ne u o.uuid o c.mem_orders (fun hx => huu hx.symm)]
              exact hp, hpe.trans hsym.symm, hpc⟩
      · rw [if_neg hsym] at hu
        obtain ⟨p, hp, hpe, hpc⟩ := h2 sym u hu
        by_cases huu : u = o.uuid
        · subst huu
          exact absurd (hpe.symm.trans (hstable p hp).2) hsym
        · exact ⟨p, by
            rw [alookup_aupsert_ne u o.uuid o c.mem_orders (fun hx => huu hx.symm)]
            exact hp, hpe, hpc⟩
    · intro u o' hlk hcl'
      by_cases huu : u = o.uuid
      · subst huu
        rw [alookup_aupsert_self] at hlk
        cases hlk
        constructor
        · rw [dget_dadd, if_pos rfl, mem_sadd]
          exact Or.inl rfl
        · rw [dget_dadd, if_pos rfl, mem_sadd]
          exact Or.inl rfl
      · rw [alookup_aupsert_ne u o.uuid o c.mem_orders (fun hx => huu hx.symm)] at hlk
        obtain ⟨m1, m2⟩ := h3 u o' hlk hcl'
        constructor
        · rw [dget_dadd]
          by_cases hex : o'.exchange = o.exchange
          · rw [if_pos hex, mem_sadd]
            exact Or.inr (hex ▸ m1)
          · rw [if_neg hex]
            exact m1
        · rw [dget_dadd]
          by_cases hsym : o'.symbol = o.symbol
          · rw [if_pos hsym, mem_sadd]
            exact Or.inr (hsym ▸ m2)
          · rw [if_neg hsym]
            exact m2
  · rw [init_check_false c o (by simpa using hc)]
    exact ⟨hnd, h1, h2, h3⟩

lemma update_fields_closed (c : AsyncCache) (o : Order)
    (hc : c.checkStatusTransition o = true) (hcl : o.status.isClosed = true) :
    (c.orderStatusUpdate o).mem_orders = aupsert o.uuid o c.mem_orders ∧
    (c.orderStatusUpdate o).mem_open_orders =
      ddiscard o.exchange o.uuid c.mem_open_orders ∧
    (c.orderStatusUpdate o).mem_symbol_open_orders =
      ddiscard o.symbol o.uuid c.mem_symbol_open_orders := by
  unfold AsyncCache.orderStatusUpdate
  rw [if_pos hc]
  dsimp only
  rw [hcl]
  exact ⟨rfl, rfl, rfl⟩

lemma orderStatusUpdate_inv (c : AsyncCache) (o : Order)
    (hinv : OpenOrdersInv c)
    (hfresh : alookup o.uuid c.mem_orders = none → o.status.isClosed = true)
    (hstable : ∀ p, alookup o.uuid c.mem_orders = some p →
      p.exchange = o.exchange ∧ p.symbol = o.symbol) :
    OpenOrdersInv (c.orderStatusUpdate o) := by
  obtain ⟨hnd, h1, h2, h3⟩ := hinv
  by_cases hc : c.checkStatusTransition o
  · have hprior_open : ∀ p, alookup o.uuid c.mem_orders = some p →
        p.status.isClosed = false := by
      intro p hp
      by_contra hcp
      have hz := closed_no_transitions p.status (by simpa using hcp)
      have hc' := hc
      unfold AsyncCache.checkStatusTransition at hc'
      rw [hp] at hc'
      dsimp only at hc'
      rw [hz] at hc'
      simp at hc'
    by_cases hcl : o.status.isClosed
    · obtain ⟨f1, f2, f3⟩ := update_fields_closed c o hc hcl
      unfold OpenOrdersInv
      rw [f1, f2, f3]
      refine ⟨aupsert_keys_nodup _ _ _ hnd, ?_, ?_, ?_⟩
      · intro ex u hu
        rw [dget_ddiscard] at hu
        by_cases hex : ex = o.exchange
        · rw [if_pos hex, mem_sdiscard] at hu
          obtain ⟨hu, huu⟩ := hu
          obtain ⟨p, hp, hpe, hpc⟩ := h1 ex u (hex ▸ hu)
          exact ⟨p, by
            rw [alookup_aupsert_ne u o.uuid o c.mem_orders (fun hx => huu hx.symm)]
            exact hp, hpe, hpc⟩
        · rw [if_neg hex] at hu
          obtain ⟨p, hp, hpe, hpc⟩ := h1 ex u hu
          by_cases huu : u = o.uuid
          · subst huu
            exact absurd (hpe.symm.trans (hstable p hp).1) hex
          · exact ⟨p, by
              rw [alookup_aupsert_ne u o.uuid o c.mem_orders (fun hx => huu hx.symm)]
              exact hp, hpe, hpc⟩
      · intro sym u hu
        rw [dget_ddiscard] at hu
        by_cases hsym : sym = o.symbol
        · rw [if_pos hsym, mem_sdiscard] at hu
          obtain ⟨hu, huu⟩ := hu
          obtain ⟨p, hp, hpe, hpc⟩ := h2 sym u (hsym ▸ hu)
          exact ⟨p, by
            rw [alookup_aupsert_ne u o.uuid o c.mem_orders (fun hx => huu hx.symm)]
            exact hp, hpe, hpc⟩
        · rw [if_neg hsym] at hu
          obtain ⟨p, hp, hpe, hpc⟩ := h2 sym u hu
          by_cases huu : u = o.uuid
          · subst huu
            exact absurd (hpe.symm.trans (hstable p hp).2) hsym
          · exact ⟨p, by
              rw [alookup_aupsert_ne u o.uuid o c.mem_orders (fun hx => huu hx.symm)]
              exact hp, hpe, hpc⟩
      · intro u o' hlk hcl'
        by_cases huu : u = o.uuid
        · subst huu
          rw [alookup_aupsert_self] at hlk
          cases hlk
          rw [hcl] at hcl'
          cases hcl'
        · rw [alookup_aupsert_ne u o.uuid o c.mem_orders (fun hx => huu hx.symm)] at hlk
          obtain ⟨m1, m2⟩ := h3 u o' hlk hcl'
          constructor
          · rw [dget_ddiscard]
            by_cases hex : o'.exchange = o.exchange
            · rw [if_pos hex, mem_sdiscard]
              exact ⟨hex ▸ m1, huu⟩
            · rw [if_neg hex]
              exact m1
          · rw [dget_ddiscard]
            by_cases hsym : o'.symbol = o.symbol
            · rw [if_pos hsym, mem_sdiscard]
              exact ⟨hsym ▸ m2, huu⟩
            · rw [if_neg hsym]
              exact m2
    · have hclf : o.status.isClosed = false := by simpa using hcl
      have f1 : (c.orderStatusUpdate o).mem_orders = aupsert o.uuid o c.mem_orders := by
        rw [update_mem_orders, if_pos hc]
      obtain ⟨f2, f3⟩ := update_open_eq c o hclf
      unfold OpenOrdersInv
      rw [f1, f2, f3]
      refine ⟨aupsert_keys_nodup _ _ _ hnd, ?_, ?_, ?_⟩
      · intro ex u hu
        obtain ⟨p, hp, hpe, hpc⟩ := h1 ex u hu
        by_cases huu : u = o.uuid
        · subst huu
          exact ⟨o, alookup_aupsert_self _ _ _,
            (hstable p hp).1.symm.trans hpe, hclf⟩
        · exact ⟨p, by
            rw [alookup_aupsert_ne u o.uuid o c.mem_orders (fun hx => huu hx.symm)]
            exact hp, hpe, hpc⟩
      · intro sym u hu
        obtain ⟨p, hp, hpe, hpc⟩ := h2 sym u hu
        by_cases huu : u = o.uuid
        · subst huu
          exact ⟨o, alookup_aupsert_self _ _ _,
            (hstable p hp).2.symm.trans hpe, hclf⟩
        · exact ⟨p, by
            rw [alookup_aupsert_ne u o.uuid o c.mem_orders (fun hx => huu hx.symm)]
            exact hp, hpe, hpc⟩
      · intro u o' hlk hcl'
        by_cases huu : u = o.uuid
        · subst huu
          rw [alookup_aupsert_self] at hlk
          cases hlk
          cases hlp : alookup o.uuid c.mem_orders with
          | none => rw [hfresh hlp] at hclf; cases hclf
          | some p =>
            obtain ⟨m1, m2⟩ := h3 o.uuid p hlp (hprior_open p hlp)
            exact ⟨(hstable p hlp).1 ▸ m1, (hstable p hlp).2 ▸ m2⟩
        · rw [alookup_aupsert_ne u o.uuid o c.mem_orders (fun hx => huu hx.symm)] at hlk
          exact h3 u o' hlk hcl'
  · rw [update_check_false c o (by simpa using hc)]
    exact ⟨hnd, h1, h2, h3⟩

lemma aerase_keys_nodup {α : Type} (k : String) (m : List (String × α))
    (h : (m.map Prod.fst).Nodup) : ((aerase k m).map Prod.fst).Nodup :=
  (((List.filter_sublist m).map Prod.fst).nodup h)

lemma foldl_aerase_keys_nodup {α : Type} (l : List String) (m : List (String × α))
    (h : (m.map Prod.fst).Nodup) :
    ((l.foldl (fun m k => aerase k m) m).map Prod.fst).Nodup := by
  induction l generalizing m with
  | nil => exact h
  | cons k rest ih => exact ih _ (aerase_keys_nodup k m h)

lemma foldl_cleanup_step_opens (l : List String) (c : AsyncCache) :
    (l.foldl (fun c uuid =>
      { c with
        mem_orders := aerase uuid c.mem_orders
        mem_closed_orders := aerase uuid c.mem_closed_orders
        mem_symbol_orders :=
          c.mem_symbol_orders.map (fun p => (p.1, sdiscard uuid p.2)) }) c).mem_open_orders =
      c.mem_open_orders ∧
    (l.foldl (fun c uuid =>
      { c with
        mem_orders := aerase uuid c.mem_orders
        mem_closed_orders := aerase uuid c.mem_closed_orders
        mem_symbol_orders :=
          c.mem_symbol_orders.map (fun p => (p.1, sdiscard uuid p.2)) }) c).mem_symbol_open_orders =
      c.mem_symbol_open_orders := by
  induction l generalizing c with
  | nil => exact ⟨rfl, rfl⟩
  | cons k rest ih => exact ih _

lemma cleanupExpiredData_inv (c : AsyncCache) (now expireTime : Int)
    (hinv : OpenOrdersInv c)
    (hterm : ∀ u o, alookup u c.mem_orders = some o →
      o.timestamp < now - expireTime * 1000 → o.status.isClosed = true) :
    OpenOrdersInv (c.cleanupExpiredData now expireTime) := by
  obtain ⟨hnd, h1, h2, h3⟩ := hinv
  have fm : (c.cleanupExpiredData now expireTime).mem_orders =
      ((c.mem_orders.filter
        (fun p => p.2.timestamp < now - expireTime * 1000)).map Prod.fst).foldl
        (fun m uuid => aerase uuid m) c.mem_orders := by
    unfold AsyncCache.cleanupExpiredData
    rw [foldl_cleanup_step_mem_orders]
  have fo := foldl_cleanup_step_opens
    ((c.mem_orders.filter
      (fun p => p.2.timestamp < now - expireTime * 1000)).map Prod.fst) c
  have fo1 : (c.cleanupExpiredData now expireTime).mem_open_orders =
      c.mem_open_orders := by
    unfold AsyncCache.cleanupExpiredData
    exact fo.1
  have fo2 : (c.cleanupExpiredData now expireTime).mem_symbol_open_orders =
      c.mem_symbol_open_orders := by
    unfold AsyncCache.cleanupExpiredData
    exact fo.2
  have hlk : ∀ u, alookup u (c.cleanupExpiredData now expireTime).mem_orders =
      if u ∈ (c.mem_orders.filter
          (fun p => p.2.timestamp < now - expireTime * 1000)).map Prod.fst then none
      else alookup u c.mem_orders := by
    intro u
    rw [fm, alookup_foldl_aerase]
  have hnotmem : ∀ u p, alookup u c.mem_orders = some p → p.status.isClosed = false →
      u ∉ (c.mem_orders.filter
        (fun p => p.2.timestamp < now - expireTime * 1000)).map Prod.fst := by
    intro u p hp hpc hmem
    obtain ⟨q, hmem', heq⟩ := List.mem_map.mp hmem
    obtain ⟨hm, ht⟩ := List.mem_filter.mp hmem'
    have hq : (u, q.2) ∈ c.mem_orders := by
      rw [← heq]
      exact hm
    have hqp := nodup_alookup_unique hnd hp hq
    have hclosed := hterm u p hp (by rw [← hqp]; simpa using ht)
    rw [hclosed] at hpc
    cases hpc
  unfold OpenOrdersInv
  rw [fo1, fo2]
  refine ⟨fm ▸ foldl_aerase_keys_nodup _ _ hnd, ?_, ?_, ?_⟩
  · intro ex u hu
    obtain ⟨p, hp, hpe, hpc⟩ := h1 ex u hu
    refine ⟨p, ?_, hpe, hpc⟩
    rw [hlk u, if_neg (hnotmem u p hp hpc)]
    exact hp
  · intro sym u hu
    obtain ⟨p, hp, hpe, hpc⟩ := h2 sym u hu
    refine ⟨p, ?_, hpe, hpc⟩
    rw [hlk u, if_neg (hnotmem u p hp hpc)]
    exact hp
  · intro u o' hlk' hcl'
    rw [hlk u] at hlk'
    by_cases hmem : u ∈ (c.mem_orders.filter
        (fun p => p.2.timestamp < now - expireTime * 1000)).map Prod.fst
    · rw [if_pos hmem] at hlk'
      cases hlk'
    · rw [if_neg hmem] at hlk'
      exact h3 u o' hlk' hcl'

/-! ## Helper lemmas about `calculateTwapOrders` -/

/-- Facts available throughout the main branch of `_calculate_twap_orders`:
the total is positive, the first interval is at least 1, the base amount is
positive and the recomputed interval is nonnegative. -/
lemma calcTwap_pre (precision : DecimalRep) (total duration wait mn : ℚ)
    (hw : 0 < wait) (hdw : wait ≤ duration) (hmn : 0 < mn) (hmt : mn ≤ total) :
    0 < total ∧ (1 : ℤ) ≤ ⌊duration / wait⌋ ∧
      0 < max mn (amountToPrecision precision (total / (⌊duration / wait⌋ : ℤ))) ∧
      (0 : ℤ) ≤ ⌊total / max mn (amountToPrecision precision (total / (⌊duration / wait⌋ : ℤ)))⌋ := by
  have htot : 0 < total := lt_of_lt_of_le hmn hmt
  have hi1 : (1 : ℤ) ≤ ⌊duration / wait⌋ := by
    rw [Int.le_floor]
    exact_mod_cast (one_le_div hw).mpr hdw
  have hbpos : 0 < max mn (amountToPrecision precision (total / (⌊duration / wait⌋ : ℤ))) :=
    lt_of_lt_of_le hmn (le_max_left _ _)
  exact ⟨htot, hi1, hbpos,
    Int.floor_nonneg.mpr (div_nonneg (le_of_lt htot) (le_of_lt hbpos))⟩

/-- In the main branch (`mn ≤ total`, positive `wait ≤ duration`, positive
`mn`), `_calculate_twap_orders` reaches the remainder split with the stated
base amount, interval and remainder. -/
lemma calcTwap_unfold (precision : DecimalRep) (total duration wait mn base : ℚ)
    (n : ℤ) (r : ℚ)
    (hw : 0 < wait) (hdw : wait ≤ duration) (hmn : 0 < mn) (hmt : mn ≤ total)
    (hb : base = max mn (amountToPrecision precision (total / (⌊duration / wait⌋ : ℤ))))
    (hn : n = ⌊total / base⌋)
    (hr : r = total - (n : ℚ) * base) :
    calculateTwapOrders precision total duration wait mn =
      (if r < mn then
        match n.toNat with
        | 0 => none
        | k + 1 =>
          some (List.replicate k base ++ [base + r],
            duration / ((List.replicate k base ++ [base + r]).length : ℚ))
      else
        some (List.replicate n.toNat base ++ [r],
          duration / ((List.replicate n.toNat base ++ [r]).length : ℚ))) := by
  obtain ⟨htot, hi1, hbpos, hnn⟩ := calcTwap_pre precision total duration wait mn hw hdw hmn hmt
  have h0 : ¬ total = 0 := ne_of_gt htot
  have h1 : ¬ total < mn := not_lt.mpr hmt
  have hw0 : ¬ wait = 0 := ne_of_gt hw
  have hi0 : ¬ ((⌊duration / wait⌋ : ℤ) : ℚ) = 0 := by
    have : (0:ℚ) < ((⌊duration / wait⌋ : ℤ) : ℚ) := by exact_mod_cast hi1
    exact ne_of_gt this
  rw [← hb] at hbpos
  have hb0 : ¬ base = 0 := ne_of_gt hbpos
  have htrunc : truncQ (total / base) = n := by
    unfold truncQ
    rw [if_pos (div_nonneg (le_of_lt htot) (le_of_lt hbpos)), hn]
  simp only [calculateTwapOrders, if_neg h0, if_neg h1, if_neg hw0, if_neg hi0,
    ← hb, if_neg hb0, htrunc, ← hr]

/-- The `remaining < min_order_amount` branch: the interval is at least 1,
and the result is `interval` slices of `base` with the remainder folded into
the last slice, waiting `duration / interval`. -/
lemma calcTwap_main_lt (precision : DecimalRep) (total duration wait mn base : ℚ)
    (n : ℤ) (r : ℚ)
    (hw : 0 < wait) (hdw : wait ≤ duration) (hmn : 0 < mn) (hmt : mn ≤ total)
    (hb : base = max mn (amountToPrecision precision (total / (⌊duration / wait⌋ : ℤ))))
    (hn : n = ⌊total / base⌋)
    (hr : r = total - (n : ℚ) * base)
    (hrm : r < mn) :
    1 ≤ n ∧
    calculateTwapOrders precision total duration wait mn =
      some (List.replicate (n.toNat - 1) base ++ [base + r],
        duration / (n.toNat : ℚ)) := by
  obtain ⟨htot, hi1, hbpos, hnn'⟩ := calcTwap_pre precision total duration wait mn hw hdw hmn hmt
  have hnn : 0 ≤ n := by rw [hn, hb]; exact hnn'
  have hn1 : 1 ≤ n := by
    rcases lt_or_eq_of_le hnn with h | h
    · omega
    · exfalso
      have hr' : r = total := by
        rw [hr, ← h]
        push_cast
        ring
      rw [hr'] at hrm
      exact (not_lt.mpr hmt) hrm
  refine ⟨hn1, ?_⟩
  rw [calcTwap_unfold precision total duration wait mn base n r hw hdw hmn hmt hb hn hr,
    if_pos hrm]
  obtain ⟨k, hk⟩ : ∃ k, n.toNat = k + 1 := ⟨n.toNat - 1, by omega⟩
  rw [hk]
  simp only [List.length_append, List.length_replicate, List.length_cons,
    List.length_nil]
  norm_num

/-- The `remaining ≥ min_order_amount` branch: `interval` slices of `base`
plus one extra slice holding the remainder, waiting
`duration / (interval + 1)`. -/
lemma calcTwap_main_ge (precision : DecimalRep) (total duration wait mn base : ℚ)
    (n : ℤ) (r : ℚ)
    (hw : 0 < wait) (hdw : wait ≤ duration) (hmn : 0 < mn) (hmt : mn ≤ total)
    (hb : base = max mn (amountToPrecision precision (total / (⌊duration / wait⌋ : ℤ))))
    (hn : n = ⌊total / base⌋)
    (hr : r = total - (n : ℚ) * base)
    (hrm : mn ≤ r) :
    calculateTwapOrders precision total duration wait mn =
      some (List.replicate n.toNat base ++ [r],
        duration / ((n.toNat : ℚ) + 1)) := by
  rw [calcTwap_unfold precision total duration wait mn base n r hw hdw hmn hmt hb hn hr,
    if_neg (not_lt.mpr hrm)]
  simp only [List.length_append, List.length_replicate, List.length_cons,
    List.length_nil]
  norm_num

/-! ## Theorems -/

/-- C9: `_amount_to_precision` with market amount precision (step) 0.001 maps
the input 0.0015 (= 3/2000) to exactly 0.002 (= 1/500) in mode `round`
(half-up), to exactly 0.002 in mode `ceil`, and to exactly 0.001 (= 1/1000)
in mode `floor`, in exact decimal arithmetic. -/
theorem claim_C9_amount_to_precision_boundary :
    amountToPrecision ⟨1, -3⟩ (3/2000) RoundMode.round = 1/500 ∧
    amountToPrecision ⟨1, -3⟩ (3/2000) RoundMode.ceil = 1/500 ∧
    amountToPrecision ⟨1, -3⟩ (3/2000) RoundMode.floor = 1/1000 := by
  have h2 : ⌈(3:ℚ)/2⌉ = 2 := by
    rw [Int.ceil_eq_iff]; norm_num
  refine ⟨?_, ?_, ?_⟩ <;>
    simp only [amountToPrecision, DecimalRep.val, quantize, roundQ, roundHalfUp] <;>
    norm_num [h2]

/-- C6, counterexample: with amount precision 0.001, best bid 1, best ask 3
and market minimum 0, Bybit's `_get_min_order_amount` returns
`ceil(max(6/(bid+ask), min))` = 1.5, not the claimed `ceil(max(6/mid, min))`
= 3 where `mid = (bid+ask)/2 = 2`: the code divides 6 by the sum of bid and
ask, not by their midpoint. -/
theorem claim_C6_counterexample :
    bybitGetMinOrderAmount ⟨1, -3⟩ 1 3 0 = 3/2 ∧
    bybitMinOrderAmountClaimed ⟨1, -3⟩ 1 3 0 = 3 ∧
    bybitGetMinOrderAmount ⟨1, -3⟩ 1 3 0 ≠ bybitMinOrderAmountClaimed ⟨1, -3⟩ 1 3 0 := by
  have h1 : bybitGetMinOrderAmount ⟨1, -3⟩ 1 3 0 = 3/2 := by
    simp only [bybitGetMinOrderAmount, amountToPrecision, DecimalRep.val, quantize,
      roundQ]
    norm_num
  have h2 : bybitMinOrderAmountClaimed ⟨1, -3⟩ 1 3 0 = 3 := by
    simp only [bybitMinOrderAmountClaimed, amountToPrecision, DecimalRep.val, quantize,
      roundQ]
    norm_num
  refine ⟨h1, h2, ?_⟩
  rw [h1, h2]; norm_num

/-- C6, amended: for every cached top-of-book, Bybit's
`_get_min_order_amount` returns `max(3 / mid, market.limits.amount.min)` —
equivalently `max(6 / (bid + ask), …)`, i.e. the code divides 6 by the sum of
best bid and best ask, which is half the claimed `6 / mid` — rounded up
(`ceil`) to the symbol's amount precision; OKX's `_get_min_order_amount`
returns `market.limits.amount.min` rounded up to the amount precision. -/
theorem claim_C6_amended (precision : DecimalRep) (bid ask marketMin : ℚ) :
    bybitGetMinOrderAmount precision bid ask marketMin =
      amountToPrecision precision (max (3 / ((bid + ask) / 2)) marketMin)
        RoundMode.ceil ∧
    okxGetMinOrderAmount precision marketMin =
      amountToPrecision precision marketMin RoundMode.ceil := by
  constructor
  · unfold bybitGetMinOrderAmount
    congr 2
    rw [div_div_eq_mul_div]
    norm_num
  · rfl

/-- C5: `_calculate_twap_orders(symbol, total, duration, wait, min)` returns
`([], 0)` when `total == 0`, and `([min], 0)` when `0 < total < min`;
otherwise, with `interval0 = ⌊duration / wait⌋`,
`base = max(min, precision(total / interval0))`, `interval = ⌊total / base⌋`,
`r = total − interval·base`, it returns `interval` slices of `base` with the
last slice increased by `r` when `r < min`, else `interval` slices of `base`
plus one extra slice of `r`, with returned wait `duration / (number of
slices)`; in both of these branches the slice amounts sum exactly to
`total`.  (Stated under the implicit preconditions `0 < wait ≤ duration` and
`0 < min`; see C10 for why they are needed.) -/
theorem claim_C5_twap_slices (precision : DecimalRep) (total duration wait mn : ℚ)
    (hw : 0 < wait) (hdw : wait ≤ duration) (hmn : 0 < mn) :
    (total = 0 → calculateTwapOrders precision total duration wait mn = some ([], 0)) ∧
    (0 < total → total < mn →
      calculateTwapOrders precision total duration wait mn = some ([mn], 0)) ∧
    (mn ≤ total →
      ∀ (base : ℚ) (n : ℤ) (r : ℚ),
        base = max mn (amountToPrecision precision (total / (⌊duration / wait⌋ : ℤ))) →
        n = ⌊total / base⌋ →
        r = total - (n : ℚ) * base →
        (r < mn →
          calculateTwapOrders precision total duration wait mn =
            some (List.replicate (n.toNat - 1) base ++ [base + r],
              duration / (n.toNat : ℚ)) ∧
          (List.replicate (n.toNat - 1) base ++ [base + r]).sum = total) ∧
        (mn ≤ r →
          calculateTwapOrders precision total duration wait mn =
            some (List.replicate n.toNat base ++ [r],
              duration / ((n.toNat : ℚ) + 1)) ∧
          (List.replicate n.toNat base ++ [r]).sum = total)) := by
  refine ⟨?_, ?_, ?_⟩
  · intro h
    simp [calculateTwapOrders, h]
  · intro hpos hlt
    simp [calculateTwapOrders, ne_of_gt hpos, hlt]
  · intro hmt base n r hb hn hr
    obtain ⟨htot, hi1, hbpos', hnn'⟩ :=
      calcTwap_pre precision total duration wait mn hw hdw hmn hmt
    have hnn : 0 ≤ n := by rw [hn, hb]; exact hnn'
    constructor
    · intro hrm
      obtain ⟨hn1, heq⟩ :=
        calcTwap_main_lt precision total duration wait mn base n r hw hdw hmn hmt hb hn hr hrm
      refine ⟨heq, ?_⟩
      have h1 : ((n.toNat - 1 : ℕ) : ℚ) = (n : ℚ) - 1 := by
        have h2 : ((n.toNat - 1 : ℕ) : ℤ) = n - 1 := by omega
        exact_mod_cast h2
      rw [List.sum_append, List.sum_replicate, List.sum_cons, List.sum_nil,
        nsmul_eq_mul, h1, hr]
      ring
    · intro hrm
      refine ⟨calcTwap_main_ge precision total duration wait mn base n r
        hw hdw hmn hmt hb hn hr hrm, ?_⟩
      have h1 : ((n.toNat : ℕ) : ℚ) = (n : ℚ) := by
        have h2 : ((n.toNat : ℕ) : ℤ) = n := Int.toNat_of_nonneg hnn
        exact_mod_cast h2
      rw [List.sum_append, List.sum_replicate, List.sum_cons, List.sum_nil,
        nsmul_eq_mul, h1, hr]
      ring

/-- Witness for C5: `total = 0.03`, `duration = 30`, `wait = 10`,
`min = 0.001`, amount precision 0.001: three slices of 0.01 and wait 10. -/
theorem claim_C5_twap_slices_witness :
    calculateTwapOrders ⟨1, -3⟩ (3/100) 30 10 (1/1000) =
      some ([1/100, 1/100, 1/100], 10) := by
  have hfloor3 : (⌊(30:ℚ)/10⌋ : ℤ) = 3 := by norm_num
  have hb : (1/100 : ℚ) =
      max (1/1000) (amountToPrecision ⟨1, -3⟩ ((3/100) / ((⌊(30:ℚ)/10⌋ : ℤ) : ℚ))) := by
    rw [hfloor3]
    simp only [amountToPrecision, DecimalRep.val, quantize, roundQ, roundHalfUp]
    norm_num
  have hn : (3 : ℤ) = ⌊(3/100 : ℚ) / (1/100)⌋ := by norm_num
  have hr : (0 : ℚ) = 3/100 - ((3:ℤ) : ℚ) * (1/100) := by norm_num
  have h := ((claim_C5_twap_slices ⟨1, -3⟩ (3/100) 30 10 (1/1000)
      (by norm_num) (by norm_num) (by norm_num)).2.2 (by norm_num)
      (1/100) 3 0 hb hn hr).1 (by norm_num)
  rw [h.1, show Int.toNat 3 = 3 from rfl]
  norm_num [List.replicate]

/-- C10, counterexample.  First input: `total = 0`, `min = 0 ≤ total`,
`wait = 2`, `duration = 1`, so `⌊duration/wait⌋ = 0` — yet the call returns
`([], 0)` instead of raising, because the `total == 0` early return precedes
every division.  Second input: `wait = 1 > 0`, `duration = 1 ≥ wait`,
`min = 0`, `total = 1/2500` with amount precision 0.001 — the rounded base
amount is 0, `max(min, 0) = 0`, and `total // base` divides by zero, so the
claimed precondition does not make every division nonzero. -/
theorem claim_C10_counterexample :
    ((⌊(1:ℚ)/2⌋ = 0) ∧ calculateTwapOrders ⟨1, -3⟩ 0 1 2 0 = some ([], 0)) ∧
    ((0:ℚ) < 1 ∧ (1:ℚ) ≤ 1 ∧
      calculateTwapOrders ⟨1, -3⟩ (1/2500) 1 1 0 = none) := by
  refine ⟨⟨by norm_num, by simp [calculateTwapOrders]⟩, by norm_num, by norm_num, ?_⟩
  have hamt : amountToPrecision ⟨1, -3⟩ ((1:ℚ)/2500) = 0 := by
    simp only [amountToPrecision, DecimalRep.val, quantize, roundQ, roundHalfUp]
    norm_num
  simp only [calculateTwapOrders]
  norm_num [hamt]

/-- C10, amended: for every input with `0 < total`, `min ≤ total`,
`0 < wait` and `⌊duration / wait⌋ = 0`, the expression `total / interval`
divides by zero and the call raises; under the precondition `wait > 0`,
`duration ≥ wait` and `min > 0`, every division in the function has a
nonzero divisor and the call returns a value. -/
theorem claim_C10_amended (precision : DecimalRep) (total duration wait mn : ℚ) :
    (0 < total → mn ≤ total → 0 < wait → ⌊duration / wait⌋ = 0 →
      calculateTwapOrders precision total duration wait mn = none) ∧
    (0 < wait → wait ≤ duration → 0 < mn →
      ∃ out, calculateTwapOrders precision total duration wait mn = some out) := by
  constructor
  · intro h0 hmt hw hfl
    simp only [calculateTwapOrders, if_neg (ne_of_gt h0), if_neg (not_lt.mpr hmt),
      if_neg (ne_of_gt hw), hfl]
    norm_num
  · intro hw hdw hmn
    by_cases h0 : total = 0
    · exact ⟨([], 0), by simp [calculateTwapOrders, h0]⟩
    · by_cases hlt : total < mn
      · exact ⟨([mn], 0), by simp [calculateTwapOrders, h0, hlt]⟩
      · have hmt : mn ≤ total := not_lt.mp hlt
        by_cases hrm : total - ((⌊total / max mn (amountToPrecision precision
            (total / (⌊duration / wait⌋ : ℤ)))⌋ : ℚ) *
            max mn (amountToPrecision precision (total / (⌊duration / wait⌋ : ℤ)))) < mn
        · obtain ⟨-, heq⟩ := calcTwap_main_lt precision total duration wait mn _ _ _
            hw hdw hmn hmt rfl rfl rfl hrm
          exact ⟨_, heq⟩
        · exact ⟨_, calcTwap_main_ge precision total duration wait mn _ _ _
            hw hdw hmn hmt rfl rfl rfl (not_lt.mp hrm)⟩

/-- Witness for C10 (amended): at `total = min = 1`, `wait = 2`,
`duration = 1` the call raises; at `total = min = wait = duration = 1` it
returns a value. -/
theorem claim_C10_amended_witness :
    calculateTwapOrders ⟨1, -3⟩ 1 1 2 1 = none ∧
    (∃ out, calculateTwapOrders ⟨1, -3⟩ 1 1 1 1 = some out) := by
  constructor
  · exact (claim_C10_amended ⟨1, -3⟩ 1 1 2 1).1 (by norm_num) (by norm_num)
      (by norm_num) (by norm_num)
  · exact (claim_C10_amended ⟨1, -3⟩ 1 1 1 1).2 (by norm_num) (by norm_num)
      (by norm_num)

/-- C4: for every `_order_status_update` call with an `Order` whose uuid
already has a prior order in `_mem_orders`: if the pair (prior status, new
status) is not in the fixed transition table `STATUS_TRANSITIONS`, the update
is dropped (with an error log) and the entire cache state is unchanged; if
the pair is in the table, the new order is committed. -/
theorem claim_C4_status_transition_gate (c : AsyncCache) (o prior : Order)
    (hprior : alookup o.uuid c.mem_orders = some prior) :
    (o.status ∉ STATUS_TRANSITIONS prior.status → c.orderStatusUpdate o = c) ∧
    (o.status ∈ STATUS_TRANSITIONS prior.status →
      alookup o.uuid (c.orderStatusUpdate o).mem_orders = some o) := by
  constructor
  · intro h
    simp [AsyncCache.orderStatusUpdate, AsyncCache.checkStatusTransition, hprior, h]
  · intro h
    simp only [AsyncCache.orderStatusUpdate, AsyncCache.checkStatusTransition, hprior]
    rw [if_pos (by simpa using h)]
    by_cases hcl : o.status.isClosed
    · simp [hcl, alookup_aupsert_self]
    · simp [hcl, alookup_aupsert_self]

/-- Witness for C4: a cache holding a PENDING order for uuid `u`; a second
PENDING update is an illegal transition (PENDING → PENDING is not in the
table) and leaves the cache exactly as it was. -/
theorem claim_C4_status_transition_gate_witness :
    AsyncCache.orderStatusUpdate
      ⟨[], [("u", ⟨"u", "S", "E", OrderStatus.PENDING, 0, OrderSide.BUY, 1, 0, 0, true⟩)],
        [], [], [], [], []⟩
      ⟨"u", "S", "E", OrderStatus.PENDING, 5, OrderSide.BUY, 1, 0, 0, true⟩ =
    ⟨[], [("u", ⟨"u", "S", "E", OrderStatus.PENDING, 0, OrderSide.BUY, 1, 0, 0, true⟩)],
      [], [], [], [], []⟩ :=
  (claim_C4_status_transition_gate _ _
      ⟨"u", "S", "E", OrderStatus.PENDING, 0, OrderSide.BUY, 1, 0, 0, true⟩
      (by simp [alookup])).1 (by decide)

/-- C7: `_cancel_order`.  When the registry holds no venue order id for the
submitted uuid, it logs one error and returns without calling the connector
and without publishing; when the connector's `cancel_order` returns
`success = false`, it publishes on `cancel_failed` and leaves the cache
unchanged; when it returns `success = true`, it commits the transition (to
CANCELING) via `_order_status_update` and publishes on `canceling`. -/
theorem claim_C7_cancel_order (c : AsyncCache) (uuid : String) (resp : Order) :
    (cancelOrder c none uuid resp = ⟨c, [], 1, false⟩) ∧
    (∀ oid : String, resp.success = false →
      cancelOrder c (some oid) uuid resp =
        ⟨c, [("cancel_failed", { resp with uuid := uuid })], 0, true⟩) ∧
    (∀ oid : String, resp.success = true →
      cancelOrder c (some oid) uuid resp =
        ⟨c.orderStatusUpdate { resp with uuid := uuid },
          [("canceling", { resp with uuid := uuid })], 0, true⟩) := by
  refine ⟨rfl, ?_, ?_⟩
  · intro oid hfail
    simp [cancelOrder, hfail]
  · intro oid hsucc
    simp [cancelOrder, hsucc]

/-- Witness for C7: a successful connector cancel response for a registered
uuid commits through `_order_status_update` and publishes `canceling`. -/
theorem claim_C7_cancel_order_witness :
    cancelOrder AsyncCache.empty (some "V1") "u"
      ⟨"", "S", "E", OrderStatus.CANCELING, 0, OrderSide.BUY, 1, 0, 0, true⟩ =
    ⟨AsyncCache.empty.orderStatusUpdate
        ⟨"u", "S", "E", OrderStatus.CANCELING, 0, OrderSide.BUY, 1, 0, 0, true⟩,
      [("canceling", ⟨"u", "S", "E", OrderStatus.CANCELING, 0, OrderSide.BUY, 1, 0, 0, true⟩)],
      0, true⟩ :=
  (claim_C7_cancel_order AsyncCache.empty "u"
      ⟨"", "S", "E", OrderStatus.CANCELING, 0, OrderSide.BUY, 1, 0, 0, true⟩).2.2 "V1" rfl

/-- C2, counterexample: an order with timestamp 0 and the non-terminal
status PENDING is nevertheless evicted from `_mem_orders` by
`_cleanup_expired_data` at `now = 7200000` ms with `expire_time = 3600` s —
the code never consults the status (cache.py lines 144–148). -/
theorem claim_C2_counterexample :
    OrderStatus.isClosed OrderStatus.PENDING = false ∧
    alookup "u"
      ((⟨[], [("u", ⟨"u", "S", "E", OrderStatus.PENDING, 0, OrderSide.BUY, 1, 0, 0, true⟩)],
          [], [], [], [], []⟩ : AsyncCache).cleanupExpiredData 7200000 3600).mem_orders =
      none := by
  constructor
  · rfl
  · decide

/-- C2, amended: TTL eviction removes an `Order` from the in-memory cache
exactly when its timestamp is older than `now − expire_time` (in ms),
irrespective of its status; every order whose timestamp is at or after the
cutoff is left in memory unchanged.  (Stated for caches whose order map has
no duplicate keys, which every reachable state satisfies.) -/
theorem claim_C2_amended_ttl_eviction (c : AsyncCache) (now expireTime : Int)
    (hnd : (c.mem_orders.map Prod.fst).Nodup) (u : String) (o : Order)
    (h : alookup u c.mem_orders = some o) :
    (o.timestamp < now - expireTime * 1000 →
      alookup u (c.cleanupExpiredData now expireTime).mem_orders = none) ∧
    (now - expireTime * 1000 ≤ o.timestamp →
      alookup u (c.cleanupExpiredData now expireTime).mem_orders = some o) := by
  unfold AsyncCache.cleanupExpiredData
  rw [foldl_cleanup_step_mem_orders, alookup_foldl_aerase]
  constructor
  · intro hold
    rw [if_pos]
    exact List.mem_map.mpr ⟨(u, o), List.mem_filter.mpr ⟨alookup_mem h, by simpa using hold⟩, rfl⟩
  · intro hfresh
    rw [if_neg, h]
    intro hmem
    obtain ⟨⟨u', o'⟩, hmem', heq⟩ := List.mem_map.mp hmem
    obtain ⟨hm, ht⟩ := List.mem_filter.mp hmem'
    cases heq
    have := nodup_alookup_unique hnd h hm
    subst this
    simp at ht
    omega

/-- Witness for C2 (amended): the same one-order cache at `now = 3600000`
ms, exactly at the cutoff — the order stays in memory. -/
theorem claim_C2_amended_ttl_eviction_witness :
    alookup "u"
      ((⟨[], [("u", ⟨"u", "S", "E", OrderStatus.PENDING, 0, OrderSide.BUY, 1, 0, 0, true⟩)],
          [], [], [], [], []⟩ : AsyncCache).cleanupExpiredData 3600000 3600).mem_orders =
      some ⟨"u", "S", "E", OrderStatus.PENDING, 0, OrderSide.BUY, 1, 0, 0, true⟩ := by
  exact (claim_C2_amended_ttl_eviction _ 3600000 3600 (by simp) "u"
    ⟨"u", "S", "E", OrderStatus.PENDING, 0, OrderSide.BUY, 1, 0, 0, true⟩
    (by simp [alookup])).2 (by norm_num)

/-- C8, counterexample: delivering the same PARTIALLY_FILLED order (filled
quantity 1) twice applies `SpotPosition._apply` twice — the symbol's position
goes from 1 after the first delivery to 2 after the second, because the
`closed_orders` guard is set only on FILLED and CANCELED (cache.py lines
225–226). -/
theorem claim_C8_counterexample :
    alookup "S"
      ((AsyncCache.empty.deliverStatus
          ⟨"u", "S", "E", PARTIALLY_FILLED, 0, OrderSide.BUY, 1, 1, 0, true⟩).deliverStatus
          ⟨"u", "S", "E", PARTIALLY_FILLED, 0, OrderSide.BUY, 1, 1, 0, true⟩).mem_spot_positions =
      some ⟨"S", "E", 2⟩ ∧
    alookup "S"
      (AsyncCache.empty.deliverStatus
          ⟨"u", "S", "E", PARTIALLY_FILLED, 0, OrderSide.BUY, 1, 1, 0, true⟩).mem_spot_positions =
      some ⟨"S", "E", 1⟩ := by
  constructor <;>
  · simp only [AsyncCache.deliverStatus, AsyncCache.orderStatusUpdate,
      AsyncCache.checkStatusTransition, AsyncCache.applySpotPosition,
      AsyncCache.ensureSpotPosition, AsyncCache.getPosition, AsyncCache.flagClosed,
      AsyncCache.applyFill, AsyncCache.empty, SpotPosition.applyOrder,
      alookup, aupsert, aerase, STATUS_TRANSITIONS, OrderStatus.isClosed]
    norm_num

/-- C8, amended: delivering the same status update twice
(`_order_status_update` followed by `_apply_spot_position`, with an identical
order) is a no-op for every status except PARTIALLY_FILLED: the second
delivery leaves the entire cache unchanged.  For PARTIALLY_FILLED the order
maps (`_mem_orders`, `_mem_open_orders`, `_mem_symbol_open_orders`) are
unchanged but the position update is applied again. -/
theorem claim_C8_amended_duplicate_delivery (c : AsyncCache) (o : Order) :
    (o.status ≠ PARTIALLY_FILLED →
      (c.deliverStatus o).deliverStatus o = c.deliverStatus o) ∧
    (o.status = PARTIALLY_FILLED →
      ((c.deliverStatus o).deliverStatus o).mem_orders = (c.deliverStatus o).mem_orders ∧
      ((c.deliverStatus o).deliverStatus o).mem_open_orders =
        (c.deliverStatus o).mem_open_orders ∧
      ((c.deliverStatus o).deliverStatus o).mem_symbol_open_orders =
        (c.deliverStatus o).mem_symbol_open_orders) := by
  constructor
  · intro h
    have hmem : (c.deliverStatus o).mem_orders = (c.orderStatusUpdate o).mem_orders :=
      (applySpot_proj (c.orderStatusUpdate o) o).1
    have hupd : (c.deliverStatus o).orderStatusUpdate o = c.deliverStatus o := by
      apply update_check_false
      by_cases hc : c.checkStatusTransition o
      · have hlk : alookup o.uuid (c.deliverStatus o).mem_orders = some o := by
          rw [hmem, update_mem_orders, if_pos hc, alookup_aupsert_self]
        unfold AsyncCache.checkStatusTransition
        rw [hlk]
        simpa using self_loop_not_allowed o.status h
      · have hc' : c.checkStatusTransition o = false := by
          simpa using hc
        have : c.orderStatusUpdate o = c := update_check_false c o hc'
        rw [check_congr c (c.deliverStatus o) o (by rw [hmem, this])]
        exact hc'
    show ((c.deliverStatus o).orderStatusUpdate o).applySpotPosition o = c.deliverStatus o
    rw [hupd]
    exact applySpot_idem (c.orderStatusUpdate o) o h
  · intro h
    have hclosed : o.status.isClosed = false := by rw [h]; rfl
    have hmem : (c.deliverStatus o).mem_orders = (c.orderStatusUpdate o).mem_orders :=
      (applySpot_proj (c.orderStatusUpdate o) o).1
    have hupd : ((c.deliverStatus o).orderStatusUpdate o).mem_orders =
        (c.deliverStatus o).mem_orders ∧
        ((c.deliverStatus o).orderStatusUpdate o).mem_open_orders =
          (c.deliverStatus o).mem_open_orders ∧
        ((c.deliverStatus o).orderStatusUpdate o).mem_symbol_open_orders =
          (c.deliverStatus o).mem_symbol_open_orders := by
      by_cases hc : c.checkStatusTransition o
      · have hlk : alookup o.uuid (c.deliverStatus o).mem_orders = some o := by
          rw [hmem, update_mem_orders, if_pos hc, alookup_aupsert_self]
        have hc2 : (c.deliverStatus o).checkStatusTransition o = true := by
          unfold AsyncCache.checkStatusTransition
          rw [hlk]
          dsimp only
          rw [h]
          decide
        refine ⟨?_, update_open_eq _ o hclosed⟩
        rw [update_mem_orders, if_pos hc2, hmem, update_mem_orders, if_pos hc,
          aupsert_aupsert_self]
      · have hc' : c.checkStatusTransition o = false := by simpa using hc
        have : c.orderStatusUpdate o = c := update_check_false c o hc'
        have hc2 : (c.deliverStatus o).checkStatusTransition o = false := by
          rw [check_congr c (c.deliverStatus o) o (by rw [hmem, this])]
          exact hc'
        rw [update_check_false _ o hc2]
        exact ⟨rfl, rfl, rfl⟩
    obtain ⟨h1, h2, h3⟩ := hupd
    obtain ⟨p1, p2, p3⟩ := applySpot_proj ((c.deliverStatus o).orderStatusUpdate o) o
    show (((c.deliverStatus o).orderStatusUpdate o).applySpotPosition o).mem_orders = _ ∧ _
    exact ⟨p1.trans h1, (applySpot_proj _ o).2.1.trans h2, (applySpot_proj _ o).2.2.trans h3⟩

/-- Witness for C8 (amended): a duplicate FILLED delivery is a full no-op. -/
theorem claim_C8_amended_duplicate_delivery_witness :
    ((AsyncCache.empty.deliverStatus
        ⟨"u", "S", "E", OrderStatus.FILLED, 0, OrderSide.BUY, 1, 1, 0, true⟩).deliverStatus
        ⟨"u", "S", "E", OrderStatus.FILLED, 0, OrderSide.BUY, 1, 1, 0, true⟩) =
      AsyncCache.empty.deliverStatus
        ⟨"u", "S", "E", OrderStatus.FILLED, 0, OrderSide.BUY, 1, 1, 0, true⟩ :=
  (claim_C8_amended_duplicate_delivery AsyncCache.empty
    ⟨"u", "S", "E", OrderStatus.FILLED, 0, OrderSide.BUY, 1, 1, 0, true⟩).1 (by decide)

lemma openOrdersInv_empty : OpenOrdersInv AsyncCache.empty := by
  refine ⟨by simp [AsyncCache.empty], ?_, ?_, ?_⟩
  · intro ex u hu
    simp [AsyncCache.empty, dget, alookup] at hu
  · intro sym u hu
    simp [AsyncCache.empty, dget, alookup] at hu
  · intro u o hlk
    simp [AsyncCache.empty, alookup] at hlk

/-- C1, amended: the open-orders invariant holds after every sequence of
`_order_initialized` calls with non-closed orders, `_order_status_update`
calls that are either for a uuid already in `_mem_orders` (with its exchange
and symbol unchanged) or carry a closed status, and `_cleanup_expired_data`
calls issued when every order past the cutoff is closed: every uuid in
`_mem_open_orders[exchange]` and `_mem_symbol_open_orders[symbol]` is a key
of `_mem_orders` with matching exchange/symbol, and a uuid belongs to the
open sets exactly when the last committed status of its order is
non-closed. -/
theorem claim_C1_amended_open_orders_invariant (expireTime : Int) :
    ∀ (ops : List CacheOp) (c : AsyncCache),
      OpenOrdersInv c → GoodSeq c expireTime ops →
      OpenOrdersInv (runOps c expireTime ops) := by
  intro ops
  induction ops with
  | nil => exact fun c h _ => h
  | cons op rest ih =>
    intro c hinv hgood
    obtain ⟨hop, hrest⟩ := hgood
    refine ih _ ?_ hrest
    cases op with
    | init o => exact orderInitialized_inv c o hinv hop.1 hop.2
    | update o => exact orderStatusUpdate_inv c o hinv hop.1 hop.2
    | cleanup now => exact cleanupExpiredData_inv c now expireTime hinv hop

/-- C1, counterexample: initialize a PENDING order (timestamp 0), then run
`_cleanup_expired_data` at `now = 7200000` ms — the uuid is evicted from
`_mem_orders` but stays in `_mem_open_orders["E"]` (the cleanup loop never
touches the open sets, cache.py lines 149–155), so the open sets are not a
subset of the order map. -/
theorem claim_C1_counterexample :
    "u" ∈ dget "E"
      (runOps AsyncCache.empty 3600
        [CacheOp.init ⟨"u", "S", "E", PENDING, 0, OrderSide.BUY, 1, 0, 0, true⟩,
         CacheOp.cleanup 7200000]).mem_open_orders ∧
    alookup "u"
      (runOps AsyncCache.empty 3600
        [CacheOp.init ⟨"u", "S", "E", PENDING, 0, OrderSide.BUY, 1, 0, 0, true⟩,
         CacheOp.cleanup 7200000]).mem_orders = none := by
  constructor
  · decide
  · decide

/-- Witness for C1 (amended): the invariant after a single legal
initialization starting from the empty cache. -/
theorem claim_C1_amended_open_orders_invariant_witness :
    OpenOrdersInv (runOps AsyncCache.empty 3600
      [CacheOp.init ⟨"u", "S", "E", PENDING, 0, OrderSide.BUY, 1, 0, 0, true⟩]) :=
  claim_C1_amended_open_orders_invariant 3600 _ AsyncCache.empty openOrdersInv_empty
    ⟨⟨rfl, fun _ hp => nomatch hp⟩, trivial⟩

/-- C3: evaluation of the TWAP loop at the failing input — a parent with one
slice whose first child submission returns `success = false`.  The loop
records FAILED and breaks without submitting further children, but the code
after the loop (ems.py lines 401–402) unconditionally records FINISHED, so
the last status committed through `_order_status_update` is FINISHED, not
FAILED: the committed trace is `[RUNNING, FAILED, FINISHED]`. -/
theorem claim_C3_failed_parent_overwritten :
    twapStatusTrace (1/1000) 10 [1/100] [TwapEvent.createResult false "c1"] =
      ([AlgoOrderStatus.RUNNING, AlgoOrderStatus.FAILED, AlgoOrderStatus.FINISHED],
        true) ∧
    (twapStatusTrace (1/1000) 10 [1/100]
        [TwapEvent.createResult false "c1"]).1.getLast? ≠
      some AlgoOrderStatus.FAILED := by
  constructor
  · rfl
  · decide

end NexusTrader
